import Mathlib

/-
  Verification of the openclaw agent core (src/openclaw/tools.py and
  src/openclaw/agent.py) against its specification.

  Modelling conventions:
  * Python `str` values are modelled as `List Char` (`Str` below); only the
    newline character is treated as a line separator (the tools under
    verification split with `str.splitlines` on text they themselves wrote).
  * The filesystem is an association list from absolute paths (component
    lists) to entries (file with content, or directory).  `Path.resolve` is
    modelled on component lists, assuming a symlink-free tree, which is the
    only part of `pathlib` the code relies on.
  * External effects (the shell, `grep`, `git`) are supplied by a `ToolEnv`
    of oracles; the pure logic wrapped around them is translated from the
    source.  Exceptions are modelled with `Except PyExc`; the catch-all in
    `ToolExecutor.execute` renders them exactly as Python does
    (`f"Error: {type(e).__name__}: {e}"`).
-/

namespace OpenClaw

/-- Python strings, modelled as lists of characters. -/
abbrev Str := List Char

/-- Path components (pieces between slashes). -/
abbrev PName := Str

/-- A single quote character, used in the unknown-tool error message. -/
def squote : Char := Char.ofNat 39

/-- Split a character list on a separator character; mirrors `str.split(sep)`
(the result always has one more piece than there are separators). -/
def splitOnChar (sep : Char) : Str → List Str
  | [] => [[]]
  | c :: rest =>
    if c = sep then [] :: splitOnChar sep rest
    else
      match splitOnChar sep rest with
      | [] => [[c]]
      | h :: t => (c :: h) :: t

/-- `pathlib` drops empty components and lone dots when parsing a path
string: `Path("a//./b").parts == ("a", "b")`. -/
def splitPath (s : Str) : List PName :=
  (splitOnChar '/' s).filter (fun c => !(c == []) && !(c == ['.']))

/-- Whether a path string is absolute (starts with a slash). -/
def isAbsPath (s : Str) : Bool :=
  match s with
  | '/' :: _ => true
  | _ => false

/-- Normalisation step of `Path.resolve` on a symlink-free tree: process
components left to right, `..` removing the previous component (a no-op at
the filesystem root). -/
def resolveComps (cs : List PName) : List PName :=
  cs.foldl (fun acc c => if c = ('.' :: '.' :: []) then acc.dropLast else acc ++ [c]) []

/-- `str(Path)` for an absolute component list: "/" followed by the
components joined with "/". -/
def pathStr (cs : List PName) : Str :=
  '/' :: List.intercalate ['/'] cs

/-- `(self.root / path).resolve()` from `ToolExecutor._resolve`: joining an
absolute candidate discards the root, a relative one is appended to it. -/
def resolveCand (root : List PName) (s : Str) : List PName :=
  resolveComps ((if isAbsPath s then [] else root) ++ splitPath s)

/-- A Python exception: its type name and its message. -/
structure PyExc where
  ty : Str
  msg : Str
deriving DecidableEq

/-- The `ValueError` raised by `ToolExecutor._resolve` on escape. -/
def pathEscapeExc (p : Str) : PyExc :=
  ⟨("ValueError").data, ("Path escapes project root: ").data ++ p⟩

/-- `ToolExecutor._resolve`: resolve the candidate against the root and
check `str(resolved).startswith(str(self.root))`, raising `ValueError`
otherwise. -/
def resolveE (root : List PName) (p : Str) : Except PyExc (List PName) :=
  let r := resolveCand root p
  if (pathStr root).isPrefixOf (pathStr r) then .ok r else .error (pathEscapeExc p)

/-! ## Filesystem model -/

/-- A directory entry: a regular file with its text content, or a directory. -/
inductive Entry where
  | file (content : Str)
  | dir
deriving DecidableEq

/-- The filesystem: absolute resolved paths mapped to entries.  Earlier
bindings shadow later ones. -/
abbrev FS := List (List PName × Entry)

/-- First binding of a path, if any (`Path.exists` / kind probing). -/
def lookupFS (fs : FS) (p : List PName) : Option Entry :=
  match fs with
  | [] => none
  | (q, e) :: rest => if q = p then some e else lookupFS rest p

/-- Remove every binding of a path. -/
def removeKey (fs : FS) (p : List PName) : FS :=
  fs.filter (fun kv => !(kv.1 == p))

/-- Overwrite a path with a regular file holding the given content
(`Path.write_text` overwrite semantics). -/
def setFile (fs : FS) (p : List PName) (c : Str) : FS :=
  (p, Entry.file c) :: removeKey fs p

/-- `Path.write_text`: fails on a directory, otherwise creates/overwrites. -/
def writeTextE (fs : FS) (p : List PName) (c : Str) : Except PyExc FS :=
  match lookupFS fs p with
  | some .dir => .error ⟨("IsADirectoryError").data, ("Is a directory").data⟩
  | _ => .ok (setFile fs p c)

/-- `Path.read_text`: the content of a regular file; a directory raises. -/
def readTextE (fs : FS) (p : List PName) : Except PyExc Str :=
  match lookupFS fs p with
  | some (.file c) => .ok c
  | some .dir => .error ⟨("IsADirectoryError").data, ("Is a directory").data⟩
  | none => .error ⟨("FileNotFoundError").data, ("No such file or directory").data⟩

/-- `Path.mkdir(parents=True, exist_ok=True)` walking down the component
list: existing directories are kept, a file in the way raises. -/
def mkdirsAux (fs : FS) (built : List PName) : List PName → Except PyExc FS
  | [] => .ok fs
  | n :: rest =>
    let p := built ++ [n]
    match lookupFS fs p with
    | some (.file _) => .error ⟨("FileExistsError").data, ("File exists").data⟩
    | some .dir => mkdirsAux fs p rest
    | none => mkdirsAux ((p, Entry.dir) :: fs) p rest

/-- Create a directory and all missing ancestors. -/
def mkdirsE (fs : FS) (dp : List PName) : Except PyExc FS :=
  mkdirsAux fs [] dp

/-! ## Python string operations used by the tools -/

/-- Non-overlapping occurrence count for a nonempty pattern `p :: ps`,
scanning left to right and skipping past each match (`str.count`).  The
fuel argument only forces structural recursion; any fuel of at least the
length of the scanned text gives the scan enough steps. -/
def countOccFuel (p : Char) (ps : List Char) : Nat → List Char → Nat
  | 0, _ => 0
  | _ + 1, [] => 0
  | fuel + 1, c :: rest =>
    if (p :: ps).isPrefixOf (c :: rest) then 1 + countOccFuel p ps fuel (rest.drop ps.length)
    else countOccFuel p ps fuel rest

/-- `text.count(pat)`: for the empty pattern Python counts `len(text) + 1`. -/
def pyCount (pat s : Str) : Nat :=
  match pat with
  | [] => s.length + 1
  | p :: ps => countOccFuel p ps s.length s

/-- Replace the leftmost match of a nonempty pattern `p :: ps` by `rep`. -/
def replaceFirstAux (p : Char) (ps rep : List Char) : List Char → List Char
  | [] => []
  | c :: rest =>
    if (p :: ps).isPrefixOf (c :: rest) then rep ++ rest.drop ps.length
    else c :: replaceFirstAux p ps rep rest

/-- `text.replace(pat, rep, 1)`: one leftmost replacement; Python replaces
an empty pattern at position 0, prepending `rep`. -/
def pyReplaceFirst (pat rep s : Str) : Str :=
  match pat with
  | [] => rep ++ s
  | p :: ps => replaceFirstAux p ps rep s

/-- The line-boundary characters of `str.splitlines`: LF, CR, VT, FF, FS,
GS, RS, NEL, LINE SEPARATOR, PARAGRAPH SEPARATOR. -/
def lineBreakChars : List Char :=
  ['\n', '\x0d', '\x0b', '\x0c', '\x1c', '\x1d', '\x1e', '\x85', '\u2028', '\u2029']

/-- Whether a character is a `str.splitlines` line boundary. -/
def isLineBreak (c : Char) : Bool := lineBreakChars.contains c

/-- Cut a string at every `str.splitlines` boundary, a CR-LF pair counting
as one boundary; the final piece is the tail after the last boundary (kept
here even when empty, so the result is never empty).  The fuel argument
only forces structural recursion; any fuel of at least the length of the
text gives the scan enough steps. -/
def slSplitFuel : Nat → Str → List Str
  | 0, _ => [[]]
  | _ + 1, [] => [[]]
  | fuel + 1, c :: rest =>
    if c = '\x0d' then
      match rest with
      | '\n' :: rest2 => [] :: slSplitFuel fuel rest2
      | _ => [] :: slSplitFuel fuel rest
    else if isLineBreak c then [] :: slSplitFuel fuel rest
    else
      match slSplitFuel fuel rest with
      | [] => [[c]]
      | h :: t => (c :: h) :: t

/-- Boundary cut of a whole string. -/
def slSplit (s : Str) : List Str := slSplitFuel s.length s

/-- `str.splitlines`: cut at every line boundary and drop the final piece
when it is empty (`"a\n".splitlines() == ["a"]`, `"".splitlines() == []`,
`"a\rb".splitlines() == ["a", "b"]`). -/
def pySplitlines (s : Str) : List Str :=
  if (slSplit s).getLast? = some [] then (slSplit s).dropLast else slSplit s

/-- The universal-newlines decoding performed by `Path.read_text` (opened
with `newline=None`): every CR-LF pair and every lone CR becomes LF (with
the same structural-fuel convention). -/
def foldNewlinesFuel : Nat → Str → Str
  | 0, s => s
  | _ + 1, [] => []
  | fuel + 1, c :: rest =>
    if c = '\x0d' then
      match rest with
      | '\n' :: rest2 => '\n' :: foldNewlinesFuel fuel rest2
      | _ => '\n' :: foldNewlinesFuel fuel rest
    else c :: foldNewlinesFuel fuel rest

/-- Universal-newlines decoding of a whole string. -/
def foldNewlines (s : Str) : Str := foldNewlinesFuel s.length s

/-- Number of occurrences of one character (`str.count` of a 1-char needle
never overlaps, so a plain filter agrees with it). -/
def countChar (c : Char) (s : Str) : Nat :=
  (s.filter (fun d => d == c)).length

/-- Decimal digit expansion, most significant first, with structural fuel
(any fuel of at least `n + 1` suffices, since dividing by ten strictly
shrinks a positive number). -/
def natDigitsAux : Nat → Nat → List Char
  | 0, _ => []
  | fuel + 1, n =>
    if n < 10 then [Nat.digitChar n]
    else natDigitsAux fuel (n / 10) ++ [Nat.digitChar (n % 10)]

/-- Decimal digits of a natural number (`str(n)` for `n >= 0`). -/
def natDigits (n : Nat) : List Char :=
  natDigitsAux (n + 1) n

/-- `str(n)` for an integer. -/
def intFmt (i : Int) : Str :=
  if i < 0 then '-' :: natDigits i.natAbs else natDigits i.toNat

/-- `str(n)` for a natural number. -/
def natFmt (n : Nat) : Str := natDigits n

/-- Right-align a string in a field of the given width with a pad character
(`f"{n:4d}"` style). -/
def padLeft (width : Nat) (c : Char) (s : Str) : Str :=
  List.replicate (width - s.length) c ++ s

/-- Clamp one Python slice index: negative indices count from the end. -/
def pySliceIdx (n : Nat) (i : Int) : Nat :=
  if i < 0 then (i + n).toNat else min i.toNat n

/-- `l[s:e]` Python slicing. -/
def pySlice (l : List Str) (s e : Int) : List Str :=
  (l.take (pySliceIdx l.length e)).drop (pySliceIdx l.length s)

/-- `str.lower`, character by character. -/
def lowerStr (s : Str) : Str := s.map Char.toLower

/-- Python string `<`: lexicographic comparison of code points. -/
def strLt : Str → Str → Bool
  | [], [] => false
  | [], _ :: _ => true
  | _ :: _, [] => false
  | a :: xs, b :: ys =>
    if a.val < b.val then true
    else if b.val < a.val then false
    else strLt xs ys

/-! ## Tool arguments

The driver decodes the JSON argument object of a tool call into a mapping;
`handler(**args)` then binds it to the handler parameters.  We model the
mapping as an association list of JSON-compatible values and fold every
binding failure (missing required argument, unexpected keyword, value of
the wrong shape) into a `TypeError`, which is what CPython raises at or
shortly after the call. -/

/-- A JSON-compatible argument value as the tools consume them. -/
inductive Val where
  | str (s : Str)
  | int (n : Int)
  | null
deriving DecidableEq

/-- The decoded argument mapping. -/
abbrev Args := List (Str × Val)

/-- First value bound to a key. -/
def lookupArg (args : Args) (k : Str) : Option Val :=
  (args.find? (fun kv => kv.1 == k)).map (·.2)

/-- Build a `TypeError`. -/
def typeErr (m : Str) : PyExc := ⟨("TypeError").data, m⟩

/-- `handler(**args)` rejects keywords the handler does not declare. -/
def checkKeys (args : Args) (allowed : List Str) : Except PyExc Unit :=
  if args.all (fun kv => allowed.contains kv.1) then .ok ()
  else .error (typeErr ("got an unexpected keyword argument").data)

/-- Bind a required string parameter. -/
def getStr (args : Args) (k : Str) : Except PyExc Str :=
  match lookupArg args k with
  | some (.str s) => .ok s
  | some _ => .error (typeErr (("argument is not a string: ").data ++ k))
  | none => .error (typeErr (("missing required argument: ").data ++ k))

/-- Bind an optional string parameter with a default (`path: str = "."`). -/
def getStrD (args : Args) (k : Str) (d : Str) : Except PyExc Str :=
  match lookupArg args k with
  | some (.str s) => .ok s
  | some _ => .error (typeErr (("argument is not a string: ").data ++ k))
  | none => .ok d

/-- Bind an optional string parameter defaulting to `None`. -/
def getOptStr (args : Args) (k : Str) : Except PyExc (Option Str) :=
  match lookupArg args k with
  | some (.str s) => .ok (some s)
  | some (.int _) => .error (typeErr (("argument is not a string: ").data ++ k))
  | some .null => .ok none
  | none => .ok none

/-- Bind an optional integer parameter defaulting to `None`. -/
def getOptInt (args : Args) (k : Str) : Except PyExc (Option Int) :=
  match lookupArg args k with
  | some (.int n) => .ok (some n)
  | some (.str _) => .error (typeErr (("argument is not an integer: ").data ++ k))
  | some .null => .ok none
  | none => .ok none

/-- Bind an optional integer parameter with a default (`timeout: int = 60`). -/
def getIntD (args : Args) (k : Str) (d : Int) : Except PyExc Int :=
  match lookupArg args k with
  | some (.int n) => .ok n
  | some (.str _) => .error (typeErr (("argument is not an integer: ").data ++ k))
  | some .null => .error (typeErr (("argument is not an integer: ").data ++ k))
  | none => .ok d

/-! ## External effects -/

/-- Outcome of `subprocess.run(command, shell=True, ...)`. -/
inductive ShellOut where
  | timedOut
  | completed (returncode : Int) (stdout stderr : Str)

/-- Oracles for the effects that leave the modelled filesystem: the shell,
the external `grep`/fallback search pipeline, and `git`.  The pure logic
around them is translated from the source; their outcomes are inputs of the
model. -/
structure ToolEnv where
  /-- `subprocess.run` in `_tool_run_command` (command, timeout). -/
  shell : Str → Int → ShellOut
  /-- Everything `_tool_search_code` does after the path resolution check:
  the `grep` subprocess, the Windows fallback walk with `re`, the
  "No matches" message, root-relative cleaning and the 50-result cap.  An
  exception (for example `subprocess.TimeoutExpired` from `grep`, which the
  source does not catch) is modelled as `.error`. -/
  searchTail : Str → List PName → Option Str → FS → Except PyExc Str
  /-- The two `subprocess.run` calls of `_tool_git_commit` for a given
  message: returncode, stdout and stderr of `git commit`. -/
  git : Str → Except PyExc (Int × Str × Str)

/-! ## Tool handlers (`ToolExecutor._tool_*`) -/

/-- Render an exception the way `ToolExecutor.execute` does:
`f"Error: {type(e).__name__}: {e}"`. -/
def errString (e : PyExc) : Str :=
  ("Error: ").data ++ e.ty ++ (": ").data ++ e.msg

/-- The completion sentinel prefix. -/
def sentinel : Str := ("__TASK_DONE__:").data

/-- `"\n".join(pieces)`. -/
def joinNl : List Str → Str
  | [] => []
  | [l] => l
  | l :: m :: rest => l ++ '\n' :: joinNl (m :: rest)

/-- `f"{i + start + 1:4d} | {line}"` over `enumerate(selected)` in
`_tool_read_file`. -/
def numberLines (start : Int) : Nat → List Str → List Str
  | _, [] => []
  | i, l :: ls =>
    (padLeft 4 ' ' (intFmt ((i : Int) + start + 1)) ++ (" | ").data ++ l)
      :: numberLines start (i + 1) ls

/-- `_tool_read_file`. -/
def toolReadFile (root : List PName) (args : Args) (fs : FS) : Except PyExc (Str × FS) :=
  (checkKeys args [("path").data, ("start_line").data, ("end_line").data]).bind fun _ =>
  (getStr args ("path").data).bind fun path =>
  (getOptInt args ("start_line").data).bind fun startLine =>
  (getOptInt args ("end_line").data).bind fun endLine =>
  (resolveE root path).bind fun fp =>
  match lookupFS fs fp with
  | none => .ok (("Error: File not found: ").data ++ path, fs)
  | some .dir => .ok (("Error: Not a file: ").data ++ path, fs)
  | some (.file content) =>
    -- `fp.read_text(...)` decodes with universal newlines, then splitlines
    let lines := pySplitlines (foldNewlines content)
    -- `start = (start_line or 1) - 1`: `or` treats 0 like None
    let start : Int := (match startLine with
      | some v => if v = 0 then 1 else v
      | none => 1) - 1
    -- `end = end_line or len(lines)`
    let endI : Int := match endLine with
      | some v => if v = 0 then (lines.length : Int) else v
      | none => (lines.length : Int)
    let selected := pySlice lines start endI
    let numbered := numberLines start 0 selected
    .ok (("File: ").data ++ path ++ (" (").data ++ natFmt lines.length ++
          (" lines total)").data ++ '\n' :: joinNl numbered, fs)

/-- Line count reported by `_tool_write_file`:
`content.count("\n") + (1 if content and not content.endswith("\n") else 0)`. -/
def writeLineCount (content : Str) : Nat :=
  countChar '\n' content +
    (if content ≠ [] ∧ content.getLast? ≠ some '\n' then 1 else 0)

/-- `_tool_write_file`. -/
def toolWriteFile (root : List PName) (args : Args) (fs : FS) : Except PyExc (Str × FS) :=
  (checkKeys args [("path").data, ("content").data]).bind fun _ =>
  (getStr args ("path").data).bind fun path =>
  (getStr args ("content").data).bind fun content =>
  (resolveE root path).bind fun fp =>
  (mkdirsE fs fp.dropLast).bind fun fs1 =>
  (writeTextE fs1 fp content).bind fun fs2 =>
  .ok (("OK: Wrote ").data ++ natFmt (writeLineCount content) ++
        (" lines to ").data ++ path, fs2)

/-- The `old_string found N times` message of `_tool_edit_file`. -/
def ambiguousMsg (count : Nat) (path : Str) : Str :=
  ("Error: old_string found ").data ++ natFmt count ++ (" times in ").data ++
    path ++ (", must be unique. Provide more context.").data

/-- `_tool_edit_file`. -/
def toolEditFile (root : List PName) (args : Args) (fs : FS) : Except PyExc (Str × FS) :=
  (checkKeys args [("path").data, ("old_string").data, ("new_string").data]).bind fun _ =>
  (getStr args ("path").data).bind fun path =>
  (getStr args ("old_string").data).bind fun oldString =>
  (getStr args ("new_string").data).bind fun newString =>
  (resolveE root path).bind fun fp =>
  match lookupFS fs fp with
  | none => .ok (("Error: File not found: ").data ++ path, fs)
  | some .dir => .error ⟨("IsADirectoryError").data, ("Is a directory").data⟩
  | some (.file text) =>
    let count := pyCount oldString text
    if count = 0 then .ok (("Error: old_string not found in ").data ++ path, fs)
    else if 1 < count then .ok (ambiguousMsg count path, fs)
    else
      .ok (("OK: Replaced 1 occurrence in ").data ++ path,
            setFile fs fp (pyReplaceFirst oldString newString text))

/-- Names hidden by `_tool_list_dir`; note the filter additionally requires
the name to start with a dot, so only the dotted members can ever match. -/
def hiddenNames : List Str :=
  [(".git").data, ("__pycache__").data, (".venv").data, ("venv").data]

/-- The immediate children of a directory, in filesystem order, first
binding of each name winning (`Path.iterdir`). -/
def childrenFS (fs : FS) (dp : List PName) (seen : List PName) : List (PName × Entry) :=
  match fs with
  | [] => []
  | (q, e) :: rest =>
    match q.drop dp.length with
    | [n] =>
      if dp.isPrefixOf q ∧ ¬ n ∈ seen then
        (n, e) :: childrenFS rest dp (n :: seen)
      else childrenFS rest dp seen
    | _ => childrenFS rest dp seen

/-- Sort key of `_tool_list_dir`: `(not entry.is_dir(), entry.name.lower())`. -/
def entKey (p : PName × Entry) : Bool × Str :=
  (match p.2 with | .dir => false | .file _ => true, lowerStr p.1)

/-- Python tuple `<=` on the sort keys (bool `False < True`, then string
code-point order). -/
def keyLe (a b : Bool × Str) : Bool :=
  (!a.1 && b.1) || (a.1 == b.1 && !(strLt b.2 a.2))

/-- Stable insertion into a key-sorted list. -/
def insertEnt (x : PName × Entry) : List (PName × Entry) → List (PName × Entry)
  | [] => [x]
  | y :: ys => if keyLe (entKey y) (entKey x) then y :: insertEnt x ys else x :: y :: ys

/-- `sorted(dp.iterdir(), key=lambda p: (not p.is_dir(), p.name.lower()))`. -/
def sortEntries (l : List (PName × Entry)) : List (PName × Entry) :=
  l.foldr insertEnt []

/-- `entry.relative_to(self.root)` as a string; raises `ValueError` when the
entry is not below the root (possible because `_resolve` only checks a
string prefix). -/
def relativeTo (root p : List PName) : Except PyExc Str :=
  if root.isPrefixOf p then
    .ok (match p.drop root.length with
          | [] => ['.']
          | cs => List.intercalate ['/'] cs)
  else .error ⟨("ValueError").data, ("is not in the subpath").data⟩

/-- The loop body of `_tool_list_dir`: relative path, the dot-prefixed
hidden-name filter, then `"/"` for directories or the byte size for files
(sizes are modelled as character counts). -/
def listLinesAux (root dp : List PName) : List (PName × Entry) → Except PyExc (List Str)
  | [] => .ok []
  | (n, e) :: rest =>
    (relativeTo root (dp ++ [n])).bind fun rel =>
    if ['.'].isPrefixOf n ∧ n ∈ hiddenNames then listLinesAux root dp rest
    else
      (listLinesAux root dp rest).bind fun tail =>
      .ok ((("  ").data ++ rel ++
            (match e with
             | .dir => ['/']
             | .file c => ("  (").data ++ natFmt c.length ++ (" bytes)").data)) :: tail)

/-- `_tool_list_dir`. -/
def toolListDir (root : List PName) (args : Args) (fs : FS) : Except PyExc (Str × FS) :=
  (checkKeys args [("path").data]).bind fun _ =>
  (getStrD args ("path").data ['.']).bind fun path =>
  (resolveE root path).bind fun dp =>
  match lookupFS fs dp with
  | none => .ok (("Error: Directory not found: ").data ++ path, fs)
  | some (.file _) => .ok (("Error: Not a directory: ").data ++ path, fs)
  | some .dir =>
    (listLinesAux root dp (sortEntries (childrenFS fs dp []))).bind fun result =>
    .ok (if result ≠ [] then
           ("Directory: ").data ++ path ++ '\n' :: joinNl result
         else ("Directory: ").data ++ path ++ (" (empty)").data, fs)

/-- `_tool_search_code`: resolve the path, then hand over to the external
search pipeline (see `ToolEnv.searchTail`). -/
def toolSearchCode (env : ToolEnv) (root : List PName) (args : Args) (fs : FS) :
    Except PyExc (Str × FS) :=
  (checkKeys args [("pattern").data, ("path").data, ("include").data]).bind fun _ =>
  (getStr args ("pattern").data).bind fun pattern =>
  (getStrD args ("path").data ['.']).bind fun path =>
  (getOptStr args ("include").data).bind fun includeGlob =>
  (resolveE root path).bind fun dp =>
  (env.searchTail pattern dp includeGlob fs).bind fun output =>
  .ok (output, fs)

/-- `_tool_run_command`: combined output, head-and-tail truncation over
8000 characters, status line, timeout caught as an error result. -/
def toolRunCommand (env : ToolEnv) (args : Args) (fs : FS) : Except PyExc (Str × FS) :=
  (checkKeys args [("command").data, ("timeout").data]).bind fun _ =>
  (getStr args ("command").data).bind fun command =>
  (getIntD args ("timeout").data 60).bind fun timeout =>
  match env.shell command timeout with
  | .timedOut =>
    .ok (("Error: Command timed out after ").data ++ intFmt timeout ++ ['s'], fs)
  | .completed code out err =>
    let output := if err ≠ [] then out ++ (if out ≠ [] then ['\n'] else []) ++ err else out
    let output :=
      if 8000 < output.length then
        output.take 4000 ++ ("\n\n... (truncated) ...\n\n").data ++
          output.drop (output.length - 2000)
      else output
    let status := if code = 0 then ("OK").data
                  else ("FAILED (exit code ").data ++ intFmt code ++ [')']
    .ok (if output ≠ [] then '[' :: status ++ ']' :: '\n' :: output
         else '[' :: status ++ [']'], fs)

/-- `_tool_git_commit`: its own catch-all renders a failure as
`f"Error: {e}"` (message only, no type name). -/
def toolGitCommit (env : ToolEnv) (args : Args) (fs : FS) : Except PyExc (Str × FS) :=
  (checkKeys args [("message").data]).bind fun _ =>
  (getStr args ("message").data).bind fun message =>
  match env.git message with
  | .error e => .ok (("Error: ").data ++ e.msg, fs)
  | .ok (code, out, err) =>
    if code = 0 then .ok (("OK: Committed: ").data ++ message, fs)
    else .ok (("Git commit output: ").data ++ out ++ '\n' :: err, fs)

/-- `_tool_task_done`: wrap the summary in the completion sentinel. -/
def toolTaskDone (args : Args) (fs : FS) : Except PyExc (Str × FS) :=
  (checkKeys args [("summary").data]).bind fun _ =>
  (getStr args ("summary").data).bind fun summary =>
  .ok (sentinel ++ summary, fs)

/-- `getattr(self, f"_tool_{name}", None)`: the name-to-handler lookup. -/
def dispatch (env : ToolEnv) (root : List PName) (name : Str) :
    Option (Args → FS → Except PyExc (Str × FS)) :=
  if name = ("read_file").data then some (toolReadFile root)
  else if name = ("write_file").data then some (toolWriteFile root)
  else if name = ("edit_file").data then some (toolEditFile root)
  else if name = ("list_dir").data then some (toolListDir root)
  else if name = ("search_code").data then some (toolSearchCode env root)
  else if name = ("run_command").data then some (toolRunCommand env)
  else if name = ("git_commit").data then some (toolGitCommit env)
  else if name = ("task_done").data then some toolTaskDone
  else none

/-- `ToolExecutor.execute`: dispatch by name, unknown names and exceptions
become textual error results; an exception leaves the filesystem as the
handler found it (every modelled handler raises before writing). -/
def execute (env : ToolEnv) (root : List PName) (name : Str) (args : Args) (fs : FS) :
    Str × FS :=
  match dispatch env root name with
  | none => (("Error: Unknown tool ").data ++ squote :: name ++ [squote], fs)
  | some h =>
    match h args fs with
    | .ok r => r
    | .error e => (errString e, fs)

/-! ## Conversation driver (`run_agent` in agent.py)

The provider is modelled as a function from the (1-based) index of the
provider call and the message history at that moment to one assistant turn,
or to the exception text raised by the transport (`except Exception as e`).
The loop body is translated from the source; the `RunOut` record carries
instrumentation (number of provider calls, number of tool executions, which
return site ended the loop) next to the returned string. -/

/-- One history message (role, optional content, tool-call correlation id). -/
structure Msg where
  role : Str
  content : Option Str
  toolCallId : Option Str
deriving DecidableEq

/-- One requested tool call: provider-assigned id, tool name, decoded
arguments (`none` models a `json.JSONDecodeError`, recovered as `{}`). -/
structure ToolCall where
  id : Str
  fn : Str
  args : Option Args
deriving DecidableEq

/-- One assistant turn. -/
structure Turn where
  content : Option Str
  toolCalls : List ToolCall
deriving DecidableEq

/-- The provider client: either an assistant turn or a raised error. -/
abbrev Provider := Nat → List Msg → Except Str Turn

/-- The configuration bits the loop reads. -/
structure Config where
  autoCommit : Bool

/-- State after executing the tool calls of one turn. -/
structure TurnOut where
  fs : FS
  msgs : List Msg
  summary : Option Str
  results : List Str
deriving DecidableEq

/-- `if result.startswith("__TASK_DONE__:"): task_summary = result[len(...):]`. -/
def updSummary (acc : Option Str) (r : Str) : Option Str :=
  if sentinel.isPrefixOf r then some (r.drop sentinel.length) else acc

/-- The `for tool_call in msg.tool_calls` loop: decode arguments (malformed
becomes `{}`), execute, record a pending completion, append the tool-role
message. -/
def execToolCalls (env : ToolEnv) (root : List PName) :
    List ToolCall → FS → List Msg → Option Str → List Str → TurnOut
  | [], fs, msgs, summ, rs => ⟨fs, msgs, summ, rs⟩
  | tc :: rest, fs, msgs, summ, rs =>
    let args := match tc.args with
      | some a => a
      | none => []
    let pr := execute env root tc.fn args fs
    execToolCalls env root rest pr.2
      (msgs ++ [⟨("tool").data, some pr.1, some tc.id⟩])
      (updSummary summ pr.1) (rs ++ [pr.1])

/-- Which return site of `run_agent` produced the result. -/
inductive Outcome where
  | done
  | failed
  | exhausted
deriving DecidableEq

/-- Result of a loop invocation with instrumentation. -/
structure RunOut where
  result : Str
  fs : FS
  msgs : List Msg
  calls : Nat
  execs : Nat
  outcome : Outcome
deriving DecidableEq

/-- The fixed exhaustion message. -/
def exhaustMsg : Str :=
  ("Agent reached maximum iterations without completing the task.").data

/-- `messages.append(msg.model_dump(...))` for the assistant turn. -/
def assistantMsg (t : Turn) : Msg := ⟨("assistant").data, t.content, none⟩

/-- Python `x or d` on an optional string: `None` and the empty string both
fall back to the default. -/
def pyOr (o : Option Str) (d : Str) : Str :=
  match o with
  | some s => if s.isEmpty then d else s
  | none => d

/-- Account one provider call and this turn's tool executions on top of the
continuation of the loop. -/
def bump (t : TurnOut) (r : RunOut) : RunOut :=
  ⟨r.result, r.fs, r.msgs, r.calls + 1, r.execs + t.results.length, r.outcome⟩

@[simp] theorem bump_result (t : TurnOut) (r : RunOut) : (bump t r).result = r.result := rfl

@[simp] theorem bump_calls (t : TurnOut) (r : RunOut) : (bump t r).calls = r.calls + 1 := rfl

@[simp] theorem bump_execs (t : TurnOut) (r : RunOut) :
    (bump t r).execs = r.execs + t.results.length := rfl

@[simp] theorem bump_outcome (t : TurnOut) (r : RunOut) : (bump t r).outcome = r.outcome := rfl

/-- The `while iteration < max_iterations` loop, by remaining fuel.
`git_commit` for auto-commit is executed but, as in the source, its result
is only displayed, never appended to history. -/
def loopAux (env : ToolEnv) (root : List PName) (cfg : Config) (provider : Provider) :
    Nat → Nat → FS → List Msg → RunOut
  | 0, _, fs, msgs => ⟨exhaustMsg, fs, msgs, 0, 0, .exhausted⟩
  | fuel + 1, iter, fs, msgs =>
    match provider (iter + 1) msgs with
    | .error e => ⟨("LLM API error: ").data ++ e, fs, msgs, 1, 0, .failed⟩
    | .ok turn =>
      let msgs1 := msgs ++ [assistantMsg turn]
      if turn.toolCalls.isEmpty then
        -- `return msg.content or "(no response)"`
        ⟨pyOr turn.content ("(no response)").data, fs, msgs1, 1, 0, .done⟩
      else
        let t := execToolCalls env root turn.toolCalls fs msgs1 none []
        match t.summary with
        | none => bump t (loopAux env root cfg provider fuel (iter + 1) t.fs t.msgs)
        | some s =>
          -- `if task_summary:` is Python truthiness: an empty summary loops on
          if s.isEmpty then bump t (loopAux env root cfg provider fuel (iter + 1) t.fs t.msgs)
          else if cfg.autoCommit then
            let pr := execute env root ("git_commit").data
              [(("message").data, .str (("feat: ").data ++ s.take 72))] t.fs
            ⟨s, pr.2, t.msgs, 1, t.results.length + 1, .done⟩
          else ⟨s, t.fs, t.msgs, 1, t.results.length, .done⟩

/-- `max_iterations = 30`. -/
def maxIterations : Nat := 30

/-- The system prompt; its text never influences the loop and is abbreviated
here. -/
def systemPrompt : Str := ("You are OpenClaw, an autonomous coding agent.").data

/-- `messages = [system, user]` seeding. -/
def initMsgs (task : Str) : List Msg :=
  [⟨("system").data, some systemPrompt, none⟩, ⟨("user").data, some task, none⟩]

/-- `run_agent(task, config)` over a given provider, tool environment,
sandbox root and initial filesystem. -/
def run_agent (env : ToolEnv) (root : List PName) (cfg : Config) (provider : Provider)
    (task : Str) (fs : FS) : RunOut :=
  loopAux env root cfg provider maxIterations 0 fs (initMsgs task)

/-! ## Helper lemmas -/

@[simp] theorem ok_bind {α β : Type} (a : α) (f : α → Except PyExc β) :
    (Except.ok a).bind f = f a := rfl

@[simp] theorem error_bind {α β : Type} (e : PyExc) (f : α → Except PyExc β) :
    (Except.error e : Except PyExc α).bind f = .error e := rfl

/-- A deterministic stub environment for concrete scenarios: the shell
succeeds silently, the search pipeline returns an empty report, `git
commit` exits 0. -/
def defEnv : ToolEnv :=
  ⟨fun _ _ => .completed 0 [] [], fun _ _ _ _ => .ok [], fun _ => .ok (0, [], [])⟩

/-! ## C1: path containment -/

/-- C1 counterexample.  The claim says every candidate path whose canonical
form is not a descendant of the sandbox root fails with PathEscape.  With
root `/a/b`, the candidate `../bc` canonicalises to `/a/bc` — a sibling of
the root, not a descendant — yet `_resolve` accepts it, because
`str(resolved).startswith(str(root))` holds (`"/a/bc"` starts with
`"/a/b"`); `write_file` then performs I/O outside the root subtree. -/
theorem c1_counterexample :
    resolveE [("a").data, ("b").data] ("../bc").data = .ok [("a").data, ("bc").data] ∧
    ¬ ([("a").data, ("b").data] <+: [("a").data, ("bc").data]) ∧
    lookupFS
      (execute defEnv [("a").data, ("b").data] ("write_file").data
        [(("path").data, Val.str ("../bc/f.txt").data), (("content").data, Val.str ['x'])]
        [([("a").data, ("b").data], Entry.dir)]).2
      [("a").data, ("bc").data, ("f.txt").data] = some (.file ['x']) ∧
    ¬ ([("a").data, ("b").data] <+: [("a").data, ("bc").data, ("f.txt").data]) := by
  refine ⟨by rfl, by decide, by decide, by decide⟩

/-- C1 (amended).  For every filesystem-touching tool (read_file,
write_file, edit_file, list_dir, search_code) and every candidate path
whose canonical form fails the string-prefix containment test of
`_resolve` (its string form does not start with the string form of the
root), resolution fails with the PathEscape `ValueError` and the tool
returns that error textually with the filesystem untouched; paths whose
canonical string form extends the root string (including non-descendant
siblings such as `/a/bc` under root `/a/b`) are accepted instead. -/
theorem c1_amended (env : ToolEnv) (root : List PName) (p : Str) (fs : FS)
    (content old new pat : Str)
    (h : (pathStr root).isPrefixOf (pathStr (resolveCand root p)) = false) :
    resolveE root p = .error (pathEscapeExc p) ∧
    execute env root ("read_file").data [(("path").data, Val.str p)] fs =
      (errString (pathEscapeExc p), fs) ∧
    execute env root ("write_file").data
      [(("path").data, Val.str p), (("content").data, Val.str content)] fs =
      (errString (pathEscapeExc p), fs) ∧
    execute env root ("edit_file").data
      [(("path").data, Val.str p), (("old_string").data, Val.str old),
       (("new_string").data, Val.str new)] fs =
      (errString (pathEscapeExc p), fs) ∧
    execute env root ("list_dir").data [(("path").data, Val.str p)] fs =
      (errString (pathEscapeExc p), fs) ∧
    execute env root ("search_code").data
      [(("pattern").data, Val.str pat), (("path").data, Val.str p)] fs =
      (errString (pathEscapeExc p), fs) := by
  have h1 : resolveE root p = .error (pathEscapeExc p) := by simp [resolveE, h]
  refine ⟨h1, ?_, ?_, ?_, ?_, ?_⟩
  · simp [execute, dispatch, toolReadFile, checkKeys, getStr, getOptInt, lookupArg, h1]
  · simp [execute, dispatch, toolWriteFile, checkKeys, getStr, lookupArg, h1]
  · simp [execute, dispatch, toolEditFile, checkKeys, getStr, lookupArg, h1]
  · simp [execute, dispatch, toolListDir, checkKeys, getStrD, lookupArg, h1]
  · simp [execute, dispatch, toolSearchCode, checkKeys, getStr, getStrD, getOptStr,
      lookupArg, h1]

/-- C1 witness: with root `/a` the candidate `..` canonicalises to `/`,
which fails the prefix test, and read_file reports the PathEscape error. -/
theorem c1_witness :
    (pathStr [("a").data]).isPrefixOf (pathStr (resolveCand [("a").data] ("..").data)) = false ∧
    resolveE [("a").data] ("..").data = .error (pathEscapeExc ("..").data) ∧
    execute defEnv [("a").data] ("read_file").data
      [(("path").data, Val.str ("..").data)] [] =
      (errString (pathEscapeExc ("..").data), []) := by
  have h := c1_amended defEnv [("a").data] ("..").data [] ['x'] ['y'] ['z'] ['w'] (by decide)
  exact ⟨by decide, h.1, h.2.1⟩

/-! ## C7: list_dir hidden names -/

/-- C7 evaluation at the failing input.  The claim (and the spec) say
list_dir never includes version-control metadata or cache/virtualenv
directories.  The filter in `_tool_list_dir` requires
`entry.name.startswith(".")` AND membership in
`(".git", "__pycache__", ".venv", "venv")`, so the undotted tuple members
are dead: a directory containing `__pycache__` and `venv` lists both, while
`.git` is correctly hidden. -/
theorem c7_list_dir_leak :
    (("__pycache__").data <:+:
      (execute defEnv [("r").data] ("list_dir").data [(("path").data, Val.str ['.'])]
        [([("r").data], Entry.dir),
         ([("r").data, (".git").data], Entry.dir),
         ([("r").data, ("__pycache__").data], Entry.dir),
         ([("r").data, ("venv").data], Entry.dir),
         ([("r").data, ("a.txt").data], Entry.file ("hi").data)]).1) ∧
    (("venv").data <:+:
      (execute defEnv [("r").data] ("list_dir").data [(("path").data, Val.str ['.'])]
        [([("r").data], Entry.dir),
         ([("r").data, (".git").data], Entry.dir),
         ([("r").data, ("__pycache__").data], Entry.dir),
         ([("r").data, ("venv").data], Entry.dir),
         ([("r").data, ("a.txt").data], Entry.file ("hi").data)]).1) ∧
    ¬ ((".git").data <:+:
      (execute defEnv [("r").data] ("list_dir").data [(("path").data, Val.str ['.'])]
        [([("r").data], Entry.dir),
         ([("r").data, (".git").data], Entry.dir),
         ([("r").data, ("__pycache__").data], Entry.dir),
         ([("r").data, ("venv").data], Entry.dir),
         ([("r").data, ("a.txt").data], Entry.file ("hi").data)]).1) := by
  refine ⟨by decide, by decide, by decide⟩

/-! ## C8: execute never raises -/

/-- Textual error results start with `Error:`. -/
theorem errPrefix (s : Str) : ("Error:").data <+: ("Error: ").data ++ s := by
  refine ⟨' ' :: s, ?_⟩
  rw [(by decide : ("Error: ").data = ("Error:").data ++ [' ']), List.append_assoc]
  rfl

/-- C8.  For every tool name and argument mapping, `ToolExecutor.execute`
returns a textual result and never raises (it is a total function to a
result string): an unknown tool name yields the textual unknown-tool error,
and every result is either an `Error:`-prefixed rendering of an internal
failure or the successful output of the dispatched handler. -/
theorem c8_execute_total (env : ToolEnv) (root : List PName) (name : Str)
    (args : Args) (fs : FS) :
    (dispatch env root name = none →
      execute env root name args fs =
        (("Error: Unknown tool ").data ++ squote :: name ++ [squote], fs)) ∧
    ((("Error:").data <+: (execute env root name args fs).1) ∨
      ∃ h, dispatch env root name = some h ∧
        h args fs = .ok (execute env root name args fs)) := by
  constructor
  · intro hd
    simp [execute, hd]
  · cases hd : dispatch env root name with
    | none =>
      left
      have hex : execute env root name args fs =
          (("Error: Unknown tool ").data ++ squote :: name ++ [squote], fs) := by
        simp [execute, hd]
      rw [hex]
      rw [(by decide : ("Error: Unknown tool ").data =
            ("Error: ").data ++ ("Unknown tool ").data), List.append_assoc]
      exact errPrefix _
    | some h =>
      cases hr : h args fs with
      | ok r =>
        right
        exact ⟨h, rfl, by simp [execute, hd, hr]⟩
      | error e =>
        left
        have hex : execute env root name args fs = (errString e, fs) := by
          simp [execute, hd, hr]
        rw [hex]
        show ("Error:").data <+: errString e
        unfold errString
        rw [List.append_assoc, List.append_assoc]
        exact errPrefix _

/-- C8 witness: the unknown tool name `bogus` produces the textual
unknown-tool error result. -/
theorem c8_witness :
    dispatch defEnv [("r").data] ("bogus").data = none ∧
    execute defEnv [("r").data] ("bogus").data [] [] =
      (("Error: Unknown tool ").data ++ squote :: ("bogus").data ++ [squote], []) := by
  have h := (c8_execute_total defEnv [("r").data] ("bogus").data [] []).1
  exact ⟨by rfl, h (by rfl)⟩

/-! ## C3: iteration cap -/

/-- The loop performs at most `fuel` provider calls. -/
theorem loopAux_calls_le (env : ToolEnv) (root : List PName) (cfg : Config)
    (provider : Provider) :
    ∀ fuel iter fs msgs, (loopAux env root cfg provider fuel iter fs msgs).calls ≤ fuel := by
  intro fuel
  induction fuel with
  | zero => intro iter fs msgs; exact Nat.le_refl 0
  | succ n ih =>
    intro iter fs msgs
    simp only [loopAux]
    cases hp : provider (iter + 1) msgs with
    | error e => exact Nat.succ_le_succ (Nat.zero_le n)
    | ok turn =>
      dsimp only
      split
      · exact Nat.succ_le_succ (Nat.zero_le n)
      · split
        · exact Nat.succ_le_succ (ih _ _ _)
        · split
          · exact Nat.succ_le_succ (ih _ _ _)
          · split
            · exact Nat.succ_le_succ (Nat.zero_le n)
            · exact Nat.succ_le_succ (Nat.zero_le n)

/-- Running out of fuel is the only way to the exhausted outcome, returns
the fixed message, and happens exactly at the cap. -/
theorem loopAux_exhausted (env : ToolEnv) (root : List PName) (cfg : Config)
    (provider : Provider) :
    ∀ fuel iter fs msgs, (loopAux env root cfg provider fuel iter fs msgs).outcome = .exhausted →
      (loopAux env root cfg provider fuel iter fs msgs).result = exhaustMsg ∧
      (loopAux env root cfg provider fuel iter fs msgs).calls = fuel := by
  intro fuel
  induction fuel with
  | zero => intro iter fs msgs _; exact ⟨rfl, rfl⟩
  | succ n ih =>
    intro iter fs msgs
    simp only [loopAux]
    cases hp : provider (iter + 1) msgs with
    | error e => intro h; exact absurd h (by simp)
    | ok turn =>
      dsimp only
      split
      · intro h; exact absurd h (by simp)
      · split
        · intro h
          simp only [bump_outcome] at h
          have := ih (iter + 1) _ _ h
          simp only [bump_result, bump_calls]
          exact ⟨this.1, by omega⟩
        · split
          · intro h
            simp only [bump_outcome] at h
            have := ih (iter + 1) _ _ h
            simp only [bump_result, bump_calls]
            exact ⟨this.1, by omega⟩
          · intro h
            split at h <;> exact absurd h (by simp)

/-- C3.  For every invocation, the driver performs at most
`maxIterations = 30` provider calls; it is a total function into a result
string (never an exception), and when the cap is reached without completion
the result is the fixed maximum-iterations-reached message. -/
theorem c3_iteration_cap (env : ToolEnv) (root : List PName) (cfg : Config)
    (provider : Provider) (task : Str) (fs : FS) :
    (run_agent env root cfg provider task fs).calls ≤ maxIterations ∧
    ((run_agent env root cfg provider task fs).outcome = .exhausted →
      (run_agent env root cfg provider task fs).result = exhaustMsg ∧
      (run_agent env root cfg provider task fs).calls = maxIterations) := by
  exact ⟨loopAux_calls_le env root cfg provider maxIterations 0 fs (initMsgs task),
    fun h => loopAux_exhausted env root cfg provider maxIterations 0 fs (initMsgs task) h⟩

/-- A provider that always requests an unknown tool, so no invocation ever
completes. -/
def loopingProvider : Provider :=
  fun _ _ => .ok ⟨none, [⟨['1'], ("noop").data, some []⟩]⟩

/-- C3 witness: against `loopingProvider` the run exhausts, returning the
fixed message after exactly 30 provider calls. -/
theorem c3_witness :
    (run_agent defEnv [("r").data] ⟨false⟩ loopingProvider ("t").data []).outcome =
      .exhausted ∧
    (run_agent defEnv [("r").data] ⟨false⟩ loopingProvider ("t").data []).result =
      exhaustMsg ∧
    (run_agent defEnv [("r").data] ⟨false⟩ loopingProvider ("t").data []).calls =
      maxIterations := by
  have hout : (run_agent defEnv [("r").data] ⟨false⟩ loopingProvider ("t").data []).outcome =
      .exhausted := by decide
  have h := (c3_iteration_cap defEnv [("r").data] ⟨false⟩ loopingProvider ("t").data []).2 hout
  exact ⟨hout, h.1, h.2⟩

/-! ## C6: provider failure is terminal -/

/-- C6 (amended).  If the provider call of an iteration raises, the loop
stops at once: one provider call is accounted, no tool executes, the
history and filesystem are left as they were, and the result is the fixed
prefix `LLM API error: ` followed by the raw error text (the error text is
surfaced verbatim inside the result, but the result is not the bare error
text itself). -/
theorem c6_provider_failure (env : ToolEnv) (root : List PName) (cfg : Config)
    (provider : Provider) :
    (∀ fuel iter fs msgs e, provider (iter + 1) msgs = .error e →
      loopAux env root cfg provider (fuel + 1) iter fs msgs =
        ⟨("LLM API error: ").data ++ e, fs, msgs, 1, 0, .failed⟩) ∧
    (∀ task fs e, provider 1 (initMsgs task) = .error e →
      run_agent env root cfg provider task fs =
        ⟨("LLM API error: ").data ++ e, fs, initMsgs task, 1, 0, .failed⟩) := by
  have h1 : ∀ fuel iter fs msgs e, provider (iter + 1) msgs = .error e →
      loopAux env root cfg provider (fuel + 1) iter fs msgs =
        ⟨("LLM API error: ").data ++ e, fs, msgs, 1, 0, .failed⟩ := by
    intro fuel iter fs msgs e h
    simp [loopAux, h]
  exact ⟨h1, fun task fs e h => h1 29 0 fs (initMsgs task) e h⟩

/-- A provider whose transport always raises `boom`. -/
def errProvider : Provider := fun _ _ => .error ("boom").data

/-- C6 counterexample.  The claim says the raw error text is surfaced
verbatim as the run result; the run result is actually the error text
behind the fixed `LLM API error: ` prefix, not the bare text. -/
theorem c6_counterexample :
    (run_agent defEnv [("r").data] ⟨false⟩ errProvider ("t").data []).result =
      ("LLM API error: boom").data ∧
    (run_agent defEnv [("r").data] ⟨false⟩ errProvider ("t").data []).result ≠
      ("boom").data := by
  exact ⟨by decide, by decide⟩

/-- C6 witness: a failing first provider call aborts the run with one
provider call, zero tool executions and the prefixed error result. -/
theorem c6_witness :
    errProvider 1 (initMsgs ("t").data) = .error ("boom").data ∧
    run_agent defEnv [("r").data] ⟨false⟩ errProvider ("t").data [] =
      ⟨("LLM API error: ").data ++ ("boom").data, [], initMsgs ("t").data, 1, 0, .failed⟩ := by
  exact ⟨rfl,
    (c6_provider_failure defEnv [("r").data] ⟨false⟩ errProvider).2 ("t").data []
      ("boom").data rfl⟩

/-! ## Shared lemmas about the tool-call loop of one turn -/

/-- `task_done` wraps its summary in the sentinel and has no side effect. -/
theorem exec_taskdone (env : ToolEnv) (root : List PName) (s : Str) (fs : FS) :
    execute env root ("task_done").data [(("summary").data, Val.str s)] fs =
      (sentinel ++ s, fs) := by
  simp [execute, dispatch, toolTaskDone, checkKeys, getStr, lookupArg]

/-- A sentinel-wrapped result always (re)sets the pending summary to the
wrapped remainder. -/
theorem updSummary_sentinel (acc : Option Str) (s : Str) :
    updSummary acc (sentinel ++ s) = some s := by
  have h : sentinel.isPrefixOf (sentinel ++ s) = true := by
    rw [List.isPrefixOf_iff_prefix]; exact List.prefix_append _ _
  simp [updSummary, h, List.drop_left]

/-- The tool-call loop splits over list append. -/
theorem execToolCalls_append (env : ToolEnv) (root : List PName) :
    ∀ l₁ l₂ fs msgs acc rs,
      execToolCalls env root (l₁ ++ l₂) fs msgs acc rs =
        execToolCalls env root l₂
          (execToolCalls env root l₁ fs msgs acc rs).fs
          (execToolCalls env root l₁ fs msgs acc rs).msgs
          (execToolCalls env root l₁ fs msgs acc rs).summary
          (execToolCalls env root l₁ fs msgs acc rs).results := by
  intro l₁
  induction l₁ with
  | nil => intro l₂ fs msgs acc rs; rfl
  | cons tc rest ih =>
    intro l₂ fs msgs acc rs
    simp only [List.cons_append, execToolCalls]
    exact ih l₂ _ _ _ _

/-- Every requested call of a turn is executed: one result per call. -/
theorem execToolCalls_results_length (env : ToolEnv) (root : List PName) :
    ∀ l fs msgs acc rs,
      (execToolCalls env root l fs msgs acc rs).results.length = rs.length + l.length := by
  intro l
  induction l with
  | nil => intro fs msgs acc rs; rfl
  | cons tc rest ih =>
    intro fs msgs acc rs
    simp only [execToolCalls]
    rw [ih]
    simp
    omega

/-- A turn whose final call is `task_done(summary=s)` always records the
pending summary `s`, whatever ran before it. -/
theorem taskdone_last_summary (env : ToolEnv) (root : List PName) (cid s : Str) :
    ∀ l fs msgs acc rs,
      (execToolCalls env root
        (l ++ [⟨cid, ("task_done").data, some [(("summary").data, Val.str s)]⟩])
        fs msgs acc rs).summary = some s := by
  intro l fs msgs acc rs
  rw [execToolCalls_append]
  simp only [execToolCalls]
  rw [exec_taskdone]
  exact updSummary_sentinel _ _

/-- If the tool loop of the provider's first answer records a nonempty
pending summary, the driver finishes that turn (every call executed) and
returns the summary after exactly this one provider call. -/
theorem loopTurnDone (env : ToolEnv) (root : List PName) (cfg : Config) (provider : Provider)
    (fuel iter : Nat) (fs : FS) (msgs : List Msg) (turn : Turn) (s : Str)
    (hp : provider (iter + 1) msgs = .ok turn)
    (htc : turn.toolCalls ≠ [])
    (hsum : (execToolCalls env root turn.toolCalls fs (msgs ++ [assistantMsg turn])
      none []).summary = some s)
    (hs : s ≠ []) :
    (loopAux env root cfg provider (fuel + 1) iter fs msgs).result = s ∧
    (loopAux env root cfg provider (fuel + 1) iter fs msgs).calls = 1 ∧
    (loopAux env root cfg provider (fuel + 1) iter fs msgs).outcome = .done ∧
    (loopAux env root cfg provider (fuel + 1) iter fs msgs).execs =
      (execToolCalls env root turn.toolCalls fs (msgs ++ [assistantMsg turn])
        none []).results.length + (if cfg.autoCommit then 1 else 0) := by
  have hempty : turn.toolCalls.isEmpty = false := by
    cases h : turn.toolCalls with
    | nil => exact absurd h htc
    | cons a l => rfl
  have hsempty : s.isEmpty = false := by
    cases s with
    | nil => exact absurd rfl hs
    | cons a l => rfl
  simp only [loopAux, hp, hempty, Bool.false_eq_true, if_false, hsum, hsempty]
  split
  · rename_i hc
    simp [hc]
  · rename_i hc
    simp [hc]

/-! ## C2: task_done completion -/

/-- A provider whose first turn calls `task_done` with an empty summary and
whose second turn is plain text. -/
def c2CexProvider : Provider := fun i _ =>
  if i = 1 then
    .ok ⟨none, [⟨['1'], ("task_done").data, some [(("summary").data, Val.str [])]⟩]⟩
  else .ok ⟨some ("second").data, []⟩

/-- C2 counterexample.  For `task_done` with summary `s = ""` the executor
does return the bare sentinel, but `if task_summary:` is Python truthiness,
so the driver does not finish: it makes a second provider call and returns
that turn's text instead of returning `s`. -/
theorem c2_counterexample :
    execute defEnv [("r").data] ("task_done").data
      [(("summary").data, Val.str [])] [] = (sentinel, []) ∧
    (run_agent defEnv [("r").data] ⟨false⟩ c2CexProvider ("t").data []).result =
      ("second").data ∧
    (run_agent defEnv [("r").data] ⟨false⟩ c2CexProvider ("t").data []).calls = 2 := by
  refine ⟨by decide, by decide, by decide⟩

/-- C2 (amended).  When an assistant turn's tool calls end with
`task_done(summary=s)` (so no later call can override the pending summary)
and `s` is nonempty, the Tool Executor returns `"__TASK_DONE__:" ++ s`, the
driver still executes every call of the turn, then returns exactly `s` —
the one sentinel copy added by task_done is stripped — with no further
provider call.  An empty `s` is not treated as completion. -/
theorem c2_task_done_amended (env : ToolEnv) (root : List PName) (cfg : Config)
    (provider : Provider) (task : Str) (fs : FS) (turn : Turn) (pre : List ToolCall)
    (cid s : Str)
    (hp : provider 1 (initMsgs task) = .ok turn)
    (ht : turn.toolCalls =
      pre ++ [⟨cid, ("task_done").data, some [(("summary").data, Val.str s)]⟩])
    (hs : s ≠ []) :
    (∀ fs2, execute env root ("task_done").data [(("summary").data, Val.str s)] fs2 =
      (sentinel ++ s, fs2)) ∧
    (run_agent env root cfg provider task fs).result = s ∧
    (run_agent env root cfg provider task fs).calls = 1 ∧
    (run_agent env root cfg provider task fs).outcome = .done ∧
    (run_agent env root cfg provider task fs).execs =
      pre.length + 1 + (if cfg.autoCommit then 1 else 0) := by
  have htc : turn.toolCalls ≠ [] := by rw [ht]; simp
  have hsum : (execToolCalls env root turn.toolCalls fs
      (initMsgs task ++ [assistantMsg turn]) none []).summary = some s := by
    rw [ht]; exact taskdone_last_summary env root cid s pre fs _ none []
  have hld := loopTurnDone env root cfg provider 29 0 fs (initMsgs task) turn s hp htc hsum hs
  have hlen : (execToolCalls env root turn.toolCalls fs
      (initMsgs task ++ [assistantMsg turn]) none []).results.length = pre.length + 1 := by
    rw [ht, execToolCalls_results_length]
    simp
  refine ⟨fun fs2 => exec_taskdone env root s fs2, hld.1, hld.2.1, hld.2.2.1, ?_⟩
  show (loopAux env root cfg provider (29 + 1) 0 fs (initMsgs task)).execs =
    pre.length + 1 + (if cfg.autoCommit then 1 else 0)
  rw [hld.2.2.2, hlen]

/-- A provider whose only turn lists the sandbox root and then reports
completion. -/
def c2WitnessProvider : Provider := fun _ _ =>
  .ok ⟨none, [⟨['1'], ("list_dir").data, some [(("path").data, Val.str ['.'])]⟩,
              ⟨['2'], ("task_done").data, some [(("summary").data, Val.str ("done!").data)]⟩]⟩

/-- C2 witness: a turn `[list_dir, task_done("done!")]` ends the run after
one provider call with both calls executed and result `done!`. -/
theorem c2_witness :
    (run_agent defEnv [("r").data] ⟨false⟩ c2WitnessProvider ("t").data
      [([("r").data], Entry.dir)]).result = ("done!").data ∧
    (run_agent defEnv [("r").data] ⟨false⟩ c2WitnessProvider ("t").data
      [([("r").data], Entry.dir)]).calls = 1 ∧
    (run_agent defEnv [("r").data] ⟨false⟩ c2WitnessProvider ("t").data
      [([("r").data], Entry.dir)]).execs = 2 := by
  have h := c2_task_done_amended defEnv [("r").data] ⟨false⟩ c2WitnessProvider ("t").data
    [([("r").data], Entry.dir)]
    ⟨none, [⟨['1'], ("list_dir").data, some [(("path").data, Val.str ['.'])]⟩,
            ⟨['2'], ("task_done").data, some [(("summary").data, Val.str ("done!").data)]⟩]⟩
    [⟨['1'], ("list_dir").data, some [(("path").data, Val.str ['.'])]⟩]
    ['2'] ("done!").data rfl rfl (by decide)
  refine ⟨h.2.1, h.2.2.1, ?_⟩
  have h2 := h.2.2.2.2
  simpa using h2

/-! ## C9: sentinel detection on every tool result -/

/-- The observer matching `result.startswith("__TASK_DONE__:")`: the
remainder when a result string carries the sentinel prefix. -/
def sentRem (r : Str) : Option Str :=
  if sentinel.isPrefixOf r then some (r.drop sentinel.length) else none

/-- `updSummary` keeps the previous pending summary unless the new result
carries the sentinel. -/
theorem updSummary_eq_sentRem (acc : Option Str) (r : Str) :
    updSummary acc r = (sentRem r).elim acc some := by
  unfold updSummary sentRem
  split <;> rfl

/-- Folding `updSummary` keeps the remainder of the last sentinel-prefixed
result, or the initial value if none occurs. -/
theorem foldl_updSummary_last :
    ∀ (ns : List Str) (acc : Option Str),
      List.foldl updSummary acc ns = ((ns.filterMap sentRem).getLast?).elim acc some := by
  intro ns
  induction ns with
  | nil => intro acc; rfl
  | cons r ns ih =>
    intro acc
    rw [List.foldl_cons, ih]
    cases hr : sentRem r with
    | none =>
      have h1 : updSummary acc r = acc := by rw [updSummary_eq_sentRem, hr]; rfl
      rw [h1]
      simp only [List.filterMap_cons, hr]
    | some v =>
      have h1 : updSummary acc r = some v := by rw [updSummary_eq_sentRem, hr]; rfl
      rw [h1]
      simp only [List.filterMap_cons, hr, List.getLast?_cons]
      cases hlast : (ns.filterMap sentRem).getLast? with
      | none => rfl
      | some w => rfl

/-- The results of a turn extend the accumulator and the pending summary is
the `updSummary` fold over the newly produced results. -/
theorem execToolCalls_decomp (env : ToolEnv) (root : List PName) :
    ∀ l fs msgs acc rs, ∃ ns,
      (execToolCalls env root l fs msgs acc rs).results = rs ++ ns ∧
      (execToolCalls env root l fs msgs acc rs).summary = List.foldl updSummary acc ns := by
  intro l
  induction l with
  | nil => intro fs msgs acc rs; exact ⟨[], by simp [execToolCalls], rfl⟩
  | cons tc rest ih =>
    intro fs msgs acc rs
    simp only [execToolCalls]
    generalize execute env root tc.fn (match tc.args with | some a => a | none => []) fs = pr
    obtain ⟨ns, h1, h2⟩ := ih pr.2 (msgs ++ [⟨("tool").data, some pr.1, some tc.id⟩])
      (updSummary acc pr.1) (rs ++ [pr.1])
    exact ⟨pr.1 :: ns, by rw [h1]; simp, by rw [h2]; rfl⟩

/-- The pending summary of a turn is exactly the remainder of the last
sentinel-prefixed tool result of the turn, whichever tool produced it. -/
theorem summary_is_last_sentinel (env : ToolEnv) (root : List PName) :
    ∀ l fs msgs,
      (execToolCalls env root l fs msgs none []).summary =
        ((execToolCalls env root l fs msgs none []).results.filterMap sentRem).getLast? := by
  intro l fs msgs
  obtain ⟨ns, h1, h2⟩ := execToolCalls_decomp env root l fs msgs none []
  rw [h2, h1, List.nil_append, foldl_updSummary_last]
  cases (ns.filterMap sentRem).getLast? <;> rfl

/-- C9 (amended).  Completion is detected by string-prefix matching on
every tool result, not only on task_done: the pending summary of a turn is
the remainder of its last sentinel-prefixed result, whichever tool produced
it, and when that remainder is nonempty the driver finishes the turn's
calls and ends the invocation with it after a single provider call.  An
empty remainder is not treated as completion (Python truthiness). -/
theorem c9_sentinel_detection (env : ToolEnv) (root : List PName) (cfg : Config)
    (provider : Provider) (task : Str) (fs : FS) (turn : Turn) (s : Str) :
    (∀ calls fs0 msgs0,
      (execToolCalls env root calls fs0 msgs0 none []).summary =
        ((execToolCalls env root calls fs0 msgs0 none []).results.filterMap sentRem).getLast?) ∧
    (provider 1 (initMsgs task) = .ok turn →
      turn.toolCalls ≠ [] →
      (execToolCalls env root turn.toolCalls fs
        (initMsgs task ++ [assistantMsg turn]) none []).summary = some s →
      s ≠ [] →
      (run_agent env root cfg provider task fs).result = s ∧
      (run_agent env root cfg provider task fs).calls = 1 ∧
      (run_agent env root cfg provider task fs).outcome = .done) := by
  constructor
  · exact fun calls fs0 msgs0 => summary_is_last_sentinel env root calls fs0 msgs0
  · intro hp htc hsum hs
    have hld := loopTurnDone env root cfg provider 29 0 fs (initMsgs task) turn s hp htc hsum hs
    exact ⟨hld.1, hld.2.1, hld.2.2.1⟩

/-- A tool environment in which the external search pipeline reports a line
that is exactly the bare sentinel. -/
def sentinelSearchEnv : ToolEnv :=
  ⟨fun _ _ => .completed 0 [] [], fun _ _ _ _ => .ok sentinel, fun _ => .ok (0, [], [])⟩

/-- First turn searches (its result is the bare sentinel), second turn is
plain text. -/
def c9CexProvider : Provider := fun i _ =>
  if i = 1 then
    .ok ⟨none, [⟨['1'], ("search_code").data, some [(("pattern").data, Val.str ['x'])]⟩]⟩
  else .ok ⟨some ("after").data, []⟩

/-- C9 counterexample.  A `search_code` result that is exactly
`"__TASK_DONE__:"` is matched by the prefix check and records the empty
remainder, but the driver does not end the invocation: a second provider
call happens and its text is returned, contradicting the claim that any
sentinel-prefixed tool result ends the invocation after that turn. -/
theorem c9_counterexample :
    (execute sentinelSearchEnv [("r").data] ("search_code").data
      [(("pattern").data, Val.str ['x'])] []).1 = sentinel ∧
    (run_agent sentinelSearchEnv [("r").data] ⟨false⟩ c9CexProvider ("t").data []).result =
      ("after").data ∧
    (run_agent sentinelSearchEnv [("r").data] ⟨false⟩ c9CexProvider ("t").data []).calls = 2 := by
  refine ⟨by decide, by decide, by decide⟩

/-- A tool environment whose search pipeline reports a line that carries
the sentinel prefix followed by text. -/
def foundSearchEnv : ToolEnv :=
  ⟨fun _ _ => .completed 0 [] [],
   fun _ _ _ _ => .ok (sentinel ++ ("found it").data),
   fun _ => .ok (0, [], [])⟩

/-- The provider only ever asks for one search. -/
def c9WitnessProvider : Provider := fun _ _ =>
  .ok ⟨none, [⟨['1'], ("search_code").data, some [(("pattern").data, Val.str ['x'])]⟩]⟩

/-- C9 witness: a sentinel-prefixed `search_code` result with nonempty
remainder ends the invocation after one provider call, with the remainder
as the run result — completion without any task_done call. -/
theorem c9_witness :
    (run_agent foundSearchEnv [("r").data] ⟨false⟩ c9WitnessProvider ("t").data []).result =
      ("found it").data ∧
    (run_agent foundSearchEnv [("r").data] ⟨false⟩ c9WitnessProvider ("t").data []).calls = 1 := by
  have h := (c9_sentinel_detection foundSearchEnv [("r").data] ⟨false⟩ c9WitnessProvider
    ("t").data []
    ⟨none, [⟨['1'], ("search_code").data, some [(("pattern").data, Val.str ['x'])]⟩]⟩
    ("found it").data).2 rfl (by decide) (by decide) (by decide)
  exact ⟨h.1, h.2.1⟩

/-! ## C4: edit_file semantics -/

/-- Strip one `NNNN | ` numbering prefix: drop up to the first bar, then
the bar and the following space. -/
def stripLineNumber (l : Str) : Str := (l.dropWhile (fun c => !(c == '|'))).drop 2

/-- Reconstruct file content from the line-numbered output of read_file:
drop the header line, strip each numbering prefix, rejoin with newlines. -/
def reconstruct (out : Str) : Str :=
  joinNl (((splitOnChar '\n' out).drop 1).map stripLineNumber)

theorem splitOnChar_cons (sep c : Char) (rest : Str) :
    splitOnChar sep (c :: rest) =
      if c = sep then [] :: splitOnChar sep rest
      else
        match splitOnChar sep rest with
        | [] => [[c]]
        | h :: t => (c :: h) :: t := rfl

theorem splitOnChar_ne_nil (sep : Char) (s : Str) : splitOnChar sep s ≠ [] := by
  cases s with
  | nil => simp [splitOnChar]
  | cons c rest =>
    simp only [splitOnChar]
    split
    · simp
    · cases h : splitOnChar sep rest <;> simp

theorem splitOnChar_no_sep (sep : Char) :
    ∀ s, ∀ l ∈ splitOnChar sep s, sep ∉ l := by
  intro s
  induction s with
  | nil =>
    intro l hl
    simp [splitOnChar] at hl
    simp [hl]
  | cons c rest ih =>
    intro l hl
    simp only [splitOnChar] at hl
    by_cases hc : c = sep
    · rw [if_pos hc] at hl
      rcases List.mem_cons.mp hl with h | h
      · simp [h]
      · exact ih l h
    · rw [if_neg hc] at hl
      cases hsp : splitOnChar sep rest with
      | nil => exact absurd hsp (splitOnChar_ne_nil sep rest)
      | cons h0 t =>
        rw [hsp] at hl
        rcases List.mem_cons.mp hl with h | h
        · subst h
          intro hmem
          rcases List.mem_cons.mp hmem with h | h
          · exact hc h.symm
          · exact ih h0 (by rw [hsp]; exact List.mem_cons_self _ _) h
        · exact ih l (by rw [hsp]; exact List.mem_cons_of_mem _ h)

theorem splitOnChar_append_cons (sep : Char) :
    ∀ a b, sep ∉ a → splitOnChar sep (a ++ sep :: b) = a :: splitOnChar sep b := by
  intro a
  induction a with
  | nil => intro b _; simp [splitOnChar]
  | cons c a ih =>
    intro b hmem
    have hc : ¬ c = sep := fun h => hmem (by simp [h])
    have ha : sep ∉ a := fun h => hmem (List.mem_cons_of_mem _ h)
    simp only [List.cons_append, splitOnChar, if_neg hc, List.append_eq, ih b ha]

theorem splitOnChar_of_no_sep (sep : Char) :
    ∀ a, sep ∉ a → splitOnChar sep a = [a] := by
  intro a
  induction a with
  | nil => intro _; rfl
  | cons c a ih =>
    intro hmem
    have hc : ¬ c = sep := fun h => hmem (by simp [h])
    have ha : sep ∉ a := fun h => hmem (List.mem_cons_of_mem _ h)
    simp only [splitOnChar, if_neg hc, ih ha]

theorem split_joinNl :
    ∀ ls, (∀ l ∈ ls, '\n' ∉ l) → ls ≠ [] → splitOnChar '\n' (joinNl ls) = ls := by
  intro ls
  induction ls with
  | nil => intro _ h; exact absurd rfl h
  | cons l ls ih =>
    intro hno _
    cases ls with
    | nil => exact splitOnChar_of_no_sep '\n' l (hno l (List.mem_cons_self _ _))
    | cons m rest =>
      have h1 : '\n' ∉ l := hno l (List.mem_cons_self _ _)
      have h2 : ∀ x ∈ m :: rest, '\n' ∉ x := fun x hx => hno x (List.mem_cons_of_mem _ hx)
      simp only [joinNl, splitOnChar_append_cons '\n' l _ h1, ih h2 (by simp)]

theorem joinNl_cons_cons (c : Char) (h : Str) (t : List Str) :
    joinNl ((c :: h) :: t) = c :: joinNl (h :: t) := by
  cases t <;> rfl

theorem joinNl_splitOnChar : ∀ s, joinNl (splitOnChar '\n' s) = s := by
  intro s
  induction s with
  | nil => rfl
  | cons c rest ih =>
    by_cases hc : c = '\n'
    · subst hc
      simp only [splitOnChar, if_pos rfl]
      cases hsp : splitOnChar '\n' rest with
      | nil => exact absurd hsp (splitOnChar_ne_nil _ _)
      | cons h0 t =>
        rw [hsp] at ih
        simp only [joinNl, List.nil_append]
        rw [ih]
    · simp only [splitOnChar, if_neg hc]
      cases hsp : splitOnChar '\n' rest with
      | nil => exact absurd hsp (splitOnChar_ne_nil _ _)
      | cons h0 t =>
        rw [hsp] at ih
        rw [joinNl_cons_cons, ih]

theorem slSplitFuel_ne_nil : ∀ fuel s, slSplitFuel fuel s ≠ [] := by
  intro fuel s
  match fuel, s with
  | 0, _ => simp [slSplitFuel]
  | _ + 1, [] => simp [slSplitFuel]
  | fuel + 1, c :: rest =>
    simp only [slSplitFuel]
    split
    · split <;> simp
    · split
      · simp
      · split <;> simp

theorem slSplitFuel_no_nl : ∀ fuel s, ∀ l ∈ slSplitFuel fuel s, '\n' ∉ l := by
  intro fuel
  induction fuel with
  | zero =>
    intro s l hl
    simp [slSplitFuel] at hl
    simp [hl]
  | succ n ih =>
    intro s l hl
    cases s with
    | nil =>
      simp [slSplitFuel] at hl
      simp [hl]
    | cons c rest =>
      simp only [slSplitFuel] at hl
      by_cases hc : c = '\x0d'
      · rw [if_pos hc] at hl
        split at hl
        · rcases List.mem_cons.mp hl with h | h
          · simp [h]
          · exact ih _ l h
        · rcases List.mem_cons.mp hl with h | h
          · simp [h]
          · exact ih _ l h
      · rw [if_neg hc] at hl
        by_cases hb : isLineBreak c = true
        · rw [if_pos hb] at hl
          rcases List.mem_cons.mp hl with h | h
          · simp [h]
          · exact ih _ l h
        · rw [if_neg hb] at hl
          cases hsp : slSplitFuel n rest with
          | nil => exact absurd hsp (slSplitFuel_ne_nil n rest)
          | cons h0 t =>
            rw [hsp] at hl
            rcases List.mem_cons.mp hl with h | h
            · subst h
              intro hmem
              rcases List.mem_cons.mp hmem with h2 | h2
              · exact hb (by rw [← h2]; decide)
              · exact ih rest h0 (by rw [hsp]; exact List.mem_cons_self _ _) h2
            · exact ih rest l (by rw [hsp]; exact List.mem_cons_of_mem _ h)

theorem pySplitlines_no_nl (s : Str) : ∀ l ∈ pySplitlines s, '\n' ∉ l := by
  intro l hl
  unfold pySplitlines slSplit at hl
  split at hl
  · exact slSplitFuel_no_nl _ _ l (List.dropLast_subset _ hl)
  · exact slSplitFuel_no_nl _ _ l hl

/-- When every line boundary occurring in the text is a plain newline, the
general boundary cut agrees with cutting at newlines. -/
theorem slSplitFuel_eq_splitOnChar :
    ∀ fuel s, s.length ≤ fuel → (∀ c ∈ s, isLineBreak c = true → c = '\n') →
      slSplitFuel fuel s = splitOnChar '\n' s := by
  intro fuel
  induction fuel with
  | zero =>
    intro s hlen _
    have hs : s = [] := List.eq_nil_of_length_eq_zero (Nat.le_zero.mp hlen)
    subst hs
    rfl
  | succ n ih =>
    intro s hlen hb
    cases s with
    | nil => rfl
    | cons c rest =>
      have hlen2 : rest.length ≤ n := by
        simp only [List.length_cons] at hlen
        omega
      have hb2 : ∀ c ∈ rest, isLineBreak c = true → c = '\n' :=
        fun d hd => hb d (List.mem_cons_of_mem _ hd)
      have hc : ¬ c = '\x0d' := by
        intro h
        have := hb c (List.mem_cons_self _ _) (by rw [h]; decide)
        rw [h] at this
        exact absurd this (by decide)
      by_cases hcn : c = '\n'
      · subst hcn
        simp only [slSplitFuel, if_neg hc, splitOnChar, if_pos rfl,
          (by decide : isLineBreak '\n' = true), if_true, ih rest hlen2 hb2]
      · have hbr : isLineBreak c = false := by
          cases hx : isLineBreak c with
          | true => exact absurd (hb c (List.mem_cons_self _ _) hx) hcn
          | false => rfl
        simp only [slSplitFuel, if_neg hc, hbr, Bool.false_eq_true, if_false,
          splitOnChar, if_neg hcn, ih rest hlen2 hb2]

/-- `slSplit` agrees with `splitOnChar` on newline-only text. -/
theorem slSplit_eq_splitOnChar (s : Str)
    (hb : ∀ c ∈ s, isLineBreak c = true → c = '\n') :
    slSplit s = splitOnChar '\n' s :=
  slSplitFuel_eq_splitOnChar s.length s (Nat.le_refl _) hb

theorem foldNewlinesFuel_id : ∀ fuel s, '\x0d' ∉ s → foldNewlinesFuel fuel s = s := by
  intro fuel
  induction fuel with
  | zero => intro s _; rfl
  | succ n ih =>
    intro s hno
    cases s with
    | nil => rfl
    | cons c rest =>
      have hc : ¬ c = '\x0d' := fun h => hno (by simp [h])
      simp only [foldNewlinesFuel, if_neg hc,
        ih rest (fun h => hno (List.mem_cons_of_mem _ h))]

/-- Text without carriage returns is unchanged by universal-newlines
decoding. -/
theorem foldNewlines_id (s : Str) (h : '\x0d' ∉ s) : foldNewlines s = s :=
  foldNewlinesFuel_id s.length s h

theorem splitOnChar_last_nonempty :
    ∀ s, s ≠ [] → s.getLast? ≠ some '\n' → (splitOnChar '\n' s).getLast? ≠ some [] := by
  intro s
  induction s with
  | nil => intro h; exact absurd rfl h
  | cons c rest ih =>
    cases rest with
    | nil =>
      intro _ hlast
      have hc : ¬ c = '\n' := fun h => hlast (by rw [h]; rfl)
      simp [splitOnChar, hc]
    | cons d rest2 =>
      intro _ hlast
      have hlast2 : (d :: rest2).getLast? ≠ some '\n' := by
        rwa [List.getLast?_cons_cons] at hlast
      have ihh := ih (by simp) hlast2
      by_cases hc : c = '\n'
      · rw [splitOnChar_cons, if_pos hc]
        cases hsp : splitOnChar '\n' (d :: rest2) with
        | nil => exact absurd hsp (splitOnChar_ne_nil _ _)
        | cons h0 t =>
          rw [hsp] at ihh
          rw [List.getLast?_cons_cons]
          exact ihh
      · rw [splitOnChar_cons, if_neg hc]
        cases hsp : splitOnChar '\n' (d :: rest2) with
        | nil => exact absurd hsp (splitOnChar_ne_nil _ _)
        | cons h0 t =>
          rw [hsp] at ihh
          cases t with
          | nil => simp
          | cons t0 ts =>
            show ((c :: h0) :: t0 :: ts).getLast? ≠ some []
            rw [List.getLast?_cons_cons]
            rwa [List.getLast?_cons_cons] at ihh

/-- On text whose only line boundaries are newlines and which does not end
with one, `"\n".join(text.splitlines())` is the text itself. -/
theorem joinNl_pySplitlines (s : Str)
    (hb : ∀ c ∈ s, isLineBreak c = true → c = '\n')
    (h : s.getLast? ≠ some '\n') :
    joinNl (pySplitlines s) = s := by
  by_cases hs : s = []
  · subst hs; rfl
  · unfold pySplitlines
    rw [slSplit_eq_splitOnChar s hb, if_neg (splitOnChar_last_nonempty s hs h)]
    exact joinNl_splitOnChar s

theorem natDigitsAux_mem :
    ∀ fuel n, ∀ c ∈ natDigitsAux fuel n,
      c ∈ ['0', '1', '2', '3', '4', '5', '6', '7', '8', '9'] := by
  intro fuel
  induction fuel with
  | zero => intro n c hc; simp [natDigitsAux] at hc
  | succ m ih =>
    intro n c hc
    simp only [natDigitsAux] at hc
    split at hc
    · rename_i hlt
      simp at hc
      subst hc
      interval_cases n <;> decide
    · rcases List.mem_append.mp hc with h | h
      · exact ih (n / 10) c h
      · simp at h
        subst h
        have hm : n % 10 < 10 := Nat.mod_lt n (by omega)
        interval_cases hmod : n % 10 <;> decide

theorem intFmt_no_bar_nl (k : Int) : '|' ∉ intFmt k ∧ '\n' ∉ intFmt k := by
  unfold intFmt
  have hd : ∀ c ∈ natDigits k.natAbs, c ∈ ['0','1','2','3','4','5','6','7','8','9'] :=
    fun c hc => natDigitsAux_mem _ _ c hc
  have hd2 : ∀ c ∈ natDigits k.toNat, c ∈ ['0','1','2','3','4','5','6','7','8','9'] :=
    fun c hc => natDigitsAux_mem _ _ c hc
  split
  · constructor
    · intro hmem
      rcases List.mem_cons.mp hmem with h | h
      · exact absurd h.symm (by decide)
      · have := hd _ h; revert this; decide
    · intro hmem
      rcases List.mem_cons.mp hmem with h | h
      · exact absurd h.symm (by decide)
      · have := hd _ h; revert this; decide
  · constructor
    · intro hmem; have := hd2 _ hmem; revert this; decide
    · intro hmem; have := hd2 _ hmem; revert this; decide

theorem natFmt_no_bar_nl (n : Nat) : '|' ∉ natFmt n ∧ '\n' ∉ natFmt n := by
  have hd : ∀ c ∈ natFmt n, c ∈ ['0','1','2','3','4','5','6','7','8','9'] :=
    fun c hc => natDigitsAux_mem _ _ c hc
  constructor
  · intro hmem; have := hd _ hmem; revert this; decide
  · intro hmem; have := hd _ hmem; revert this; decide

theorem dropWhile_append_no (p : Char → Bool) :
    ∀ (a b : Str), (∀ c ∈ a, p c = true) → (a ++ b).dropWhile p = b.dropWhile p := by
  intro a
  induction a with
  | nil => intro b _; rfl
  | cons c a ih =>
    intro b hall
    simp only [List.cons_append, List.dropWhile_cons,
      hall c (List.mem_cons_self _ _), if_true]
    exact ih b (fun d hd => hall d (List.mem_cons_of_mem _ hd))

theorem strip_numbered (k : Int) (l : Str) :
    stripLineNumber (padLeft 4 ' ' (intFmt k) ++ [' ', '|', ' '] ++ l) = l := by
  have hno : ∀ c ∈ padLeft 4 ' ' (intFmt k) ++ [' '], (fun c => !(c == '|')) c = true := by
    intro c hc
    rcases List.mem_append.mp hc with h | h
    · unfold padLeft at h
      rcases List.mem_append.mp h with h2 | h2
      · have := List.eq_of_mem_replicate h2
        subst this
        decide
      · have hb := (intFmt_no_bar_nl k).1
        simp only [Bool.not_eq_true', beq_eq_false_iff_ne, ne_eq]
        intro hcc
        subst hcc
        exact hb h2
    · simp at h
      subst h
      decide
  have hsplit : padLeft 4 ' ' (intFmt k) ++ [' ', '|', ' '] ++ l =
      (padLeft 4 ' ' (intFmt k) ++ [' ']) ++ ('|' :: ' ' :: l) := by
    simp
  unfold stripLineNumber
  rw [hsplit, dropWhile_append_no _ _ _ hno]
  rfl

theorem numberLines_map_strip (st : Int) :
    ∀ ls i, (numberLines st i ls).map stripLineNumber = ls := by
  intro ls
  induction ls with
  | nil => intro i; rfl
  | cons l ls ih =>
    intro i
    simp only [numberLines, List.map_cons, ih (i + 1)]
    rw [strip_numbered]

theorem numberLines_no_nl (st : Int) :
    ∀ ls i, (∀ l ∈ ls, '\n' ∉ l) → ∀ x ∈ numberLines st i ls, '\n' ∉ x := by
  intro ls
  induction ls with
  | nil => intro i _ x hx; simp [numberLines] at hx
  | cons l ls ih =>
    intro i hno x hx
    simp only [numberLines] at hx
    rcases List.mem_cons.mp hx with h | h
    · subst h
      intro hmem
      rcases List.mem_append.mp hmem with h2 | h2
      · rcases List.mem_append.mp h2 with h3 | h3
        · unfold padLeft at h3
          rcases List.mem_append.mp h3 with h4 | h4
          · have := List.eq_of_mem_replicate h4
            exact absurd this (by decide)
          · exact (intFmt_no_bar_nl _).2 h4
        · revert h3; decide
      · exact hno l (List.mem_cons_self _ _) h2
    · exact ih (i + 1) (fun y hy => hno y (List.mem_cons_of_mem _ hy)) x h

theorem numberLines_ne_nil (st : Int) (i : Nat) (l : Str) (ls : List Str) :
    numberLines st i (l :: ls) ≠ [] := by
  simp [numberLines]

theorem pySlice_all (l : List Str) : pySlice l 0 (l.length : Int) = l := by
  unfold pySlice pySliceIdx
  rw [if_neg (by omega : ¬ ((0 : Int) < 0)), if_neg (by omega : ¬ ((l.length : Int) < 0))]
  simp

theorem lookup_setFile (fs : FS) (p : List PName) (c : Str) :
    lookupFS (setFile fs p c) p = some (.file c) := by
  simp [setFile, lookupFS]

/-- The output read_file produces when called with only `path` on a file
holding `content`: the decoded (universal-newlines) text is split into
lines and rendered with numbering. -/
def readOutput (path content : Str) : Str :=
  ("File: ").data ++ path ++ (" (").data ++
    natFmt (pySplitlines (foldNewlines content)).length ++
    (" lines total)").data ++
    '\n' :: joinNl (numberLines 0 0 (pySplitlines (foldNewlines content)))

theorem read_after_write (env : ToolEnv) (root : List PName) (path content : Str)
    (fs2 : FS) (fp : List PName)
    (hres : resolveE root path = .ok fp)
    (hlook : lookupFS fs2 fp = some (.file content)) :
    execute env root ("read_file").data [(("path").data, Val.str path)] fs2 =
      (readOutput path content, fs2) := by
  simp [execute, dispatch, toolReadFile, checkKeys, getStr, getOptInt, lookupArg,
    hres, hlook, readOutput, pySlice_all]

theorem reconstruct_readOutput (path content : Str) (hpath : '\n' ∉ path) :
    reconstruct (readOutput path content) =
      joinNl (pySplitlines (foldNewlines content)) := by
  have hH : '\n' ∉ ("File: ").data ++ path ++ (" (").data ++
      natFmt (pySplitlines (foldNewlines content)).length ++ (" lines total)").data := by
    intro hmem
    rcases List.mem_append.mp hmem with h | h
    · rcases List.mem_append.mp h with h | h
      · rcases List.mem_append.mp h with h | h
        · rcases List.mem_append.mp h with h | h
          · revert h; decide
          · exact hpath h
        · revert h; decide
      · exact (natFmt_no_bar_nl _).2 h
    · revert h; decide
  unfold reconstruct readOutput
  rw [splitOnChar_append_cons '\n' _ _ hH]
  cases hls : pySplitlines (foldNewlines content) with
  | nil => simp [numberLines, joinNl, splitOnChar, stripLineNumber]
  | cons l0 ls0 =>
    have hnonl : ∀ l ∈ l0 :: ls0, '\n' ∉ l := by
      rw [← hls]; exact pySplitlines_no_nl (foldNewlines content)
    rw [split_joinNl (numberLines 0 0 (l0 :: ls0))
      (numberLines_no_nl 0 (l0 :: ls0) 0 hnonl) (numberLines_ne_nil 0 0 l0 ls0)]
    simp only [List.drop_succ_cons, List.drop_zero]
    rw [numberLines_map_strip]

/-- C5 (amended).  Writing `content` and reading it back: write succeeds
reporting the Python line count of the raw content; read decodes with
universal newlines (CR and CR-LF become LF) and returns the line-numbered
rendering whose header reports exactly the `splitlines` count of the
decoded text; stripping the header and the numbering prefixes and
rejoining with newlines reconstructs `"\n".join(decoded.splitlines())` —
which equals `content` exactly when the only line boundaries occurring in
`content` are plain newlines and `content` does not end with one.  A
trailing newline is lost (`splitlines` drops the final empty segment), and
other boundary characters (CR, VT, FF, FS, GS, RS, NEL, LS, PS) are folded
or split away. -/
theorem c5_round_trip (env : ToolEnv) (root : List PName) (path content : Str) (fs : FS)
    (fp : List PName) (fs1 : FS)
    (hres : resolveE root path = .ok fp)
    (hmk : mkdirsE fs fp.dropLast = .ok fs1)
    (hnd : lookupFS fs1 fp ≠ some Entry.dir)
    (hpath : '\n' ∉ path) :
    execute env root ("write_file").data
      [(("path").data, Val.str path), (("content").data, Val.str content)] fs =
      (("OK: Wrote ").data ++ natFmt (writeLineCount content) ++ (" lines to ").data ++ path,
        setFile fs1 fp content) ∧
    execute env root ("read_file").data [(("path").data, Val.str path)]
      (setFile fs1 fp content) =
      (readOutput path content, setFile fs1 fp content) ∧
    (∃ rest, readOutput path content =
      ("File: ").data ++ path ++ (" (").data ++
        natFmt (pySplitlines (foldNewlines content)).length ++
        (" lines total)").data ++ rest) ∧
    reconstruct (readOutput path content) = joinNl (pySplitlines (foldNewlines content)) ∧
    ((∀ c ∈ content, isLineBreak c = true → c = '\n') →
      content.getLast? ≠ some '\n' →
      reconstruct (readOutput path content) = content) := by
  have hwt : writeTextE fs1 fp content = .ok (setFile fs1 fp content) := by
    unfold writeTextE
    cases hl : lookupFS fs1 fp with
    | none => rfl
    | some e =>
      cases e with
      | file c => rfl
      | dir => exact absurd hl hnd
  refine ⟨?_, ?_, ?_, ?_, ?_⟩
  · simp [execute, dispatch, toolWriteFile, checkKeys, getStr, lookupArg, hres, hmk, hwt]
  · exact read_after_write env root path content (setFile fs1 fp content) fp hres
      (lookup_setFile fs1 fp content)
  · exact ⟨'\n' :: joinNl (numberLines 0 0 (pySplitlines (foldNewlines content))), rfl⟩
  · exact reconstruct_readOutput path content hpath
  · intro hb h
    have hnoCR : '\x0d' ∉ content := by
      intro hmem
      have := hb _ hmem (by decide)
      exact absurd this (by decide)
    rw [reconstruct_readOutput path content hpath, foldNewlines_id content hnoCR,
      joinNl_pySplitlines content hb h]

/-- C5 counterexample.  The claim quantifies over every content string, but
the round trip is not the identity: writing `"a\n"` and reading it back
reconstructs `"a"` (`splitlines` drops the final empty segment), and
writing `"a\rb"` reads back as two lines — the header reports 2 and the
reconstruction is `"a\nb"` (`read_text` folds the carriage return to a
newline before `splitlines`). -/
theorem c5_counterexample :
    (execute defEnv [("r").data] ("write_file").data
      [(("path").data, Val.str ("f.txt").data), (("content").data, Val.str ("a\n").data)]
      [([("r").data], Entry.dir)]).1 = ("OK: Wrote 1 lines to f.txt").data ∧
    reconstruct ((execute defEnv [("r").data] ("read_file").data
      [(("path").data, Val.str ("f.txt").data)]
      (execute defEnv [("r").data] ("write_file").data
        [(("path").data, Val.str ("f.txt").data), (("content").data, Val.str ("a\n").data)]
        [([("r").data], Entry.dir)]).2).1) = ("a").data ∧
    ("a").data ≠ ("a\n").data ∧
    pySplitlines (foldNewlines ['a', '\x0d', 'b']) = [['a'], ['b']] ∧
    reconstruct ((execute defEnv [("r").data] ("read_file").data
      [(("path").data, Val.str ("f.txt").data)]
      (execute defEnv [("r").data] ("write_file").data
        [(("path").data, Val.str ("f.txt").data),
         (("content").data, Val.str ['a', '\x0d', 'b'])]
        [([("r").data], Entry.dir)]).2).1) = ['a', '\n', 'b'] ∧
    (['a', '\n', 'b'] : Str) ≠ ['a', '\x0d', 'b'] := by
  refine ⟨by decide, by decide, by decide, by decide, by decide, by decide⟩

/-- C5 witness: content `ab\ncd` (newline-only boundaries, no trailing
newline) round-trips exactly. -/
theorem c5_witness :
    reconstruct (readOutput ("g.txt").data ("ab\ncd").data) = ("ab\ncd").data := by
  have h := c5_round_trip defEnv [("r").data] ("g.txt").data ("ab\ncd").data
    [([("r").data], Entry.dir)] [("r").data, ("g.txt").data] [([("r").data], Entry.dir)]
    rfl rfl (by decide) (by decide)
  exact h.2.2.2.2 (by decide) (by decide)

end OpenClaw
